import Mathlib

/-!
Verification development for `codenames.py`, a unique code-name generator
(adjective + noun).  The program is embedded shallowly:

* Python `str` values become Lean `String` (logically a `List Char`);
  the per-character Python primitives `str.lower` / `str.upper` (ASCII
  fragment), `str.strip()`, `str.split()` (no argument: split on runs of
  whitespace) and text-file line iteration are modelled character by
  character below.
* The file system is a partial map `FS : String → Option String` from a
  path to the decoded text content of the file at that path; opening a
  missing file is the `none` case (Python's `FileNotFoundError`).  The
  `UnicodeDecodeError` / `IOError` branches cannot arise in the model
  because contents are already decoded strings and writes always succeed.
* `print` output is collected as a `List String` of printed messages.
* The network (`requests.get` + JSON decoding in `fetch_words_from_url`)
  is a parameter `web : String → String → List String` mapping an URL and
  a JSON key to the word list obtained; every failure branch of the
  Python code returns `[]`, so a failing fetch is `web` returning `[]`.
* `random.choice(seq)` picks some element of a non-empty list; a run of
  the program is parametrised by the stream of random draws, one
  `(Nat × Nat)` pair (adjective index, noun index) per iteration of the
  sampling loop, each index taken modulo the list length.  An empty
  stream cuts the (in the source, unbounded) `while` loop off and yields
  `None`, mirroring the only way the loop can fail to return.
* Python `set` becomes `Finset String`; `set.add` becomes `insert`.
-/

/-- Python `str.lower()` on the ASCII fragment: lower-case every
character (`Char.toLower` only maps `A`-`Z`, as CPython does on ASCII
input). -/
def pyLower (s : String) : String :=
  String.mk (s.toList.map Char.toLower)

/-- Python `str.upper()` on the ASCII fragment: upper-case every
character. -/
def pyUpper (s : String) : String :=
  String.mk (s.toList.map Char.toUpper)

/-- Python `str.strip()`: drop leading and trailing whitespace. -/
def pyStrip (s : String) : String :=
  String.mk (((s.toList.dropWhile Char.isWhitespace).reverse.dropWhile
    Char.isWhitespace).reverse)

/-- Helper for `pySplit`: walk the characters, accumulating the current
(reversed) token in `acc`; a whitespace character ends the token, and
empty tokens are not emitted. -/
def pySplitAux : List Char → List Char → List String
  | [], acc => if acc.isEmpty then [] else [String.mk acc.reverse]
  | c :: cs, acc =>
    if c.isWhitespace then
      (if acc.isEmpty then [] else [String.mk acc.reverse]) ++ pySplitAux cs []
    else
      pySplitAux cs (c :: acc)

/-- Python `str.split()` with no separator argument: split on runs of
whitespace; no empty tokens are produced. -/
def pySplit (s : String) : List String :=
  pySplitAux s.toList []

/-- Helper for `pyLines`: cut the character stream at every `'\n'`; the
text after the last `'\n'`, if non-empty, is a final line of its own. -/
def pyLinesAux : List Char → List Char → List String
  | [], acc => if acc.isEmpty then [] else [String.mk acc.reverse]
  | c :: cs, acc =>
    if c = '\n' then String.mk acc.reverse :: pyLinesAux cs []
    else pyLinesAux cs (c :: acc)

/-- Python text-file line iteration (`for line in file`), except that the
terminating `'\n'` Python keeps on each line is dropped here: every
consumer in the program immediately `strip()`s it away. -/
def pyLines (s : String) : List String :=
  pyLinesAux s.toList []

/-- `random.choice(seq)`: the element at the externally supplied random
index, reduced modulo the length; on a non-empty list this is always a
genuine element. -/
def pyChoice (l : List String) (i : Nat) : String :=
  l.getD (i % l.length) ""

/-- The file system: a path either holds decoded text content or no file
exists there. -/
def FS : Type := String → Option String

/-- `load_words_from_file`: read the file as text, one word per non-empty
stripped line (`[line.strip() for line in file if line.strip()]`);
on `FileNotFoundError` print a message and return the empty list.
Returns the word list together with the printed output. -/
def load_words_from_file (fs : FS) (file_path : String) :
    List String × List String :=
  match fs file_path with
  | some content =>
      ((pyLines content).filterMap fun line =>
        if pyStrip line ≠ "" then some (pyStrip line) else none, [])
  | none => ([], ["File " ++ file_path ++ " not found."])

/-- `append_to_used_code_names_file`: open the path in append mode
(creating the file when absent) and write `f"{code_name}\n"`. -/
def append_to_used_code_names_file (code_name : String) (fs : FS)
    (file_path : String) : FS :=
  fun p =>
    if p = file_path then some (((fs file_path).getD "") ++ code_name ++ "\n")
    else fs p

/-- URL of the remote adjectives list. -/
def adjectives_url : String :=
  "https://raw.githubusercontent.com/dariusk/corpora/master/data/words/adjs.json"

/-- URL of the remote nouns list. -/
def nouns_url : String :=
  "https://raw.githubusercontent.com/dariusk/corpora/master/data/words/nouns.json"

/-- `fetch_words_from_url`: ask the network for the array under `key`;
`data.get(key, [])` and every error branch yield `[]`, and an empty
result is reported. -/
def fetch_words_from_url (web : String → String → List String)
    (url key : String) : List String × List String :=
  let words := web url key
  if words = [] then
    (words, ["No words found under key \x27" ++ key ++ "\x27 in the JSON file."])
  else
    (words, [])

/-- `get_words`: each of the two lists comes from its local file when a
path was given, otherwise from the remote endpoint. -/
def get_words (fs : FS) (web : String → String → List String)
    (adjective_file noun_file : Option String) :
    List String × List String × List String :=
  let a := match adjective_file with
    | some f => load_words_from_file fs f
    | none => fetch_words_from_url web adjectives_url "adjs"
  let n := match noun_file with
    | some f => load_words_from_file fs f
    | none => fetch_words_from_url web nouns_url "nouns"
  (a.1, n.1, a.2 ++ n.2)

/-- One iteration of the parsing loop of `load_used_code_names`:
`words = line.strip().split()`; when exactly two tokens result, add
their lower-casings to the two sets, otherwise leave the sets alone. -/
def add_used_line (acc : Finset String × Finset String) (line : String) :
    Finset String × Finset String :=
  match pySplit (pyStrip line) with
  | [adj, noun] => (insert (pyLower adj) acc.1, insert (pyLower noun) acc.2)
  | _ => acc

/-- The pure part of `load_used_code_names`: fold the parsing loop over
the lines of the file content, starting from two empty sets. -/
def parse_used_code_names (content : String) : Finset String × Finset String :=
  (pyLines content).foldl add_used_line (∅, ∅)

/-- `load_used_code_names`: parse the used-names file into the two
exclusion sets; a missing file is reported and yields two empty sets.
Returns the sets together with the printed output. -/
def load_used_code_names (fs : FS) (file_path : String) :
    Finset String × Finset String × List String :=
  match fs file_path with
  | some content =>
      ((parse_used_code_names content).1, (parse_used_code_names content).2, [])
  | none => (∅, ∅, ["File " ++ file_path ++ " not found."])

/-- The `while available_adjectives and available_nouns:` loop of
`generate_unique_code_name`, driven by the stream of random draws.  The
lists and sets are exactly the loop's free variables; the `[]` case cuts
off an exhausted random stream with the loop's fall-through `None`. -/
def generate_loop (availA availN : List String)
    (usedA usedN : Finset String) :
    List (Nat × Nat) → Option String × Finset String × Finset String
  | [] => (none, usedA, usedN)
  | (i, j) :: rest =>
    if availA = [] ∨ availN = [] then (none, usedA, usedN)
    else
      let adj := pyChoice availA i
      let noun := pyChoice availN j
      let code_name := pyUpper (adj ++ " " ++ noun)
      if pyLower adj ∉ usedA ∧ pyLower noun ∉ usedN then
        (some code_name, insert (pyLower adj) usedA, insert (pyLower noun) usedN)
      else
        generate_loop availA availN usedA usedN rest

/-- `generate_unique_code_name`: filter each list down to the words whose
lower-casing is not excluded; if either filtered list is empty report
exhaustion and return `None`; otherwise run the sampling loop.  The
Python function mutates the two sets in place, so the model returns the
final value of the sets alongside the optional code name. -/
def generate_unique_code_name (adjectives nouns : List String)
    (used_adjectives used_nouns : Finset String)
    (draws : List (Nat × Nat)) :
    Option String × Finset String × Finset String :=
  let available_adjectives :=
    adjectives.filter fun adj => pyLower adj ∉ used_adjectives
  let available_nouns :=
    nouns.filter fun noun => pyLower noun ∉ used_nouns
  if available_adjectives = [] ∨ available_nouns = [] then
    (none, used_adjectives, used_nouns)
  else
    generate_loop available_adjectives available_nouns
      used_adjectives used_nouns draws

/-- The `if used_code_names_file:` guard of `main` around
`load_used_code_names`: without a path the sets stay empty and nothing
is printed. -/
def load_used_opt (fs : FS) :
    Option String → Finset String × Finset String × List String
  | some p => load_used_code_names fs p
  | none => (∅, ∅, [])

namespace Codenames

/-- `main`: load the word lists, stop early when either is empty,
otherwise load the exclusion sets, sample, report, and append on
success when requested.  Returns the final file system and the printed
output. -/
def main (fs : FS) (web : String → String → List String)
    (adjective_file noun_file used_code_names_file : Option String)
    (ap : Bool) (draws : List (Nat × Nat)) : FS × List String :=
  let g := get_words fs web adjective_file noun_file
  let adjectives := g.1
  let nouns := g.2.1
  let out1 := g.2.2
  if adjectives = [] ∨ nouns = [] then
    (fs, out1 ++ ["Error: Adjective or noun list is empty."])
  else
    let u := load_used_opt fs used_code_names_file
    let r := generate_unique_code_name adjectives nouns u.1 u.2.1 draws
    match r.1 with
    | some code_name =>
        let fs2 :=
          match ap, used_code_names_file with
          | true, some p => append_to_used_code_names_file code_name fs p
          | _, _ => fs
        (fs2, out1 ++ u.2.2 ++ ["Generated code name: " ++ code_name])
    | none =>
        (fs, out1 ++ u.2.2 ++ ["No unique code names could be generated."])

end Codenames

/-- A file system with no files: fixture for concrete runs. -/
def fsEmpty : FS := fun _ => none

/-- A network that answers every fetch with the empty list: fixture for
concrete runs. -/
def noWeb : String → String → List String := fun _ _ => []

def fsExhausted : FS := fun q =>
  if q = "a" then some "Red\n"
  else if q = "n" then some "Fox\n"
  else if q = "log" then some "RED FOX\n"
  else none

def fsReady : FS := fun q =>
  if q = "a" then some "Red\n"
  else if q = "n" then some "Fox\n"
  else if q = "log" then some "OLD CAT\n"
  else none

theorem pyChoice_mem (l : List String) (i : Nat) (h : l ≠ []) :
    pyChoice l i ∈ l := by
  have hlen : 0 < l.length := List.length_pos.mpr h
  have hm : i % l.length < l.length := Nat.mod_lt _ hlen
  unfold pyChoice
  rw [List.getD_eq_getElem?_getD, List.getElem?_eq_getElem hm]
  exact List.getElem_mem hm

theorem mk_toList (s : String) : String.mk s.toList = s := rfl

theorem mem_filter_not_used {l : List String} {used : Finset String}
    {a : String} (h : a ∈ l.filter fun x => pyLower x ∉ used) :
    a ∈ l ∧ pyLower a ∉ used := by
  simpa using List.mem_filter.mp h

theorem generate_loop_cons_accept
    (availA availN : List String) (usedA usedN : Finset String)
    (i j : Nat) (rest : List (Nat × Nat))
    (hA : availA ≠ []) (hN : availN ≠ [])
    (ha : pyLower (pyChoice availA i) ∉ usedA)
    (hn : pyLower (pyChoice availN j) ∉ usedN) :
    generate_loop availA availN usedA usedN ((i, j) :: rest) =
      (some (pyUpper (pyChoice availA i ++ " " ++ pyChoice availN j)),
       insert (pyLower (pyChoice availA i)) usedA,
       insert (pyLower (pyChoice availN j)) usedN) := by
  simp [generate_loop, hA, hN, ha, hn]

theorem generate_loop_cases (availA availN : List String)
    (usedA usedN : Finset String) (draws : List (Nat × Nat)) :
    generate_loop availA availN usedA usedN draws = (none, usedA, usedN) ∨
    ∃ a n, a ∈ availA ∧ n ∈ availN ∧ pyLower a ∉ usedA ∧ pyLower n ∉ usedN ∧
      generate_loop availA availN usedA usedN draws =
        (some (pyUpper (a ++ " " ++ n)),
         insert (pyLower a) usedA, insert (pyLower n) usedN) := by
  induction draws with
  | nil => left; rfl
  | cons d rest ih =>
    obtain ⟨i, j⟩ := d
    by_cases hA : availA = [] ∨ availN = []
    · left
      simp [generate_loop, if_pos hA]
    · push_neg at hA
      obtain ⟨hA, hN⟩ := hA
      by_cases hacc : pyLower (pyChoice availA i) ∉ usedA ∧
          pyLower (pyChoice availN j) ∉ usedN
      · right
        exact ⟨_, _, pyChoice_mem _ _ hA, pyChoice_mem _ _ hN, hacc.1, hacc.2,
          generate_loop_cons_accept availA availN usedA usedN i j rest hA hN
            hacc.1 hacc.2⟩
      · have hstep : generate_loop availA availN usedA usedN ((i, j) :: rest) =
            generate_loop availA availN usedA usedN rest := by
          simp [generate_loop, hA, hN, hacc]
        rw [hstep]
        exact ih

theorem generate_cases (adjectives nouns : List String)
    (usedA usedN : Finset String) (draws : List (Nat × Nat)) :
    generate_unique_code_name adjectives nouns usedA usedN draws =
      (none, usedA, usedN) ∨
    ∃ a n, a ∈ adjectives ∧ n ∈ nouns ∧ pyLower a ∉ usedA ∧ pyLower n ∉ usedN ∧
      generate_unique_code_name adjectives nouns usedA usedN draws =
        (some (pyUpper (a ++ " " ++ n)),
         insert (pyLower a) usedA, insert (pyLower n) usedN) := by
  unfold generate_unique_code_name
  by_cases h : adjectives.filter (fun adj => pyLower adj ∉ usedA) = [] ∨
      nouns.filter (fun noun => pyLower noun ∉ usedN) = []
  · left
    rw [if_pos h]
  · rw [if_neg h]
    rcases generate_loop_cases (adjectives.filter fun adj => pyLower adj ∉ usedA)
        (nouns.filter fun noun => pyLower noun ∉ usedN) usedA usedN draws with
      hnone | ⟨a, n, haA, hnN, ha, hn, heq⟩
    · left; exact hnone
    · right
      exact ⟨a, n, (mem_filter_not_used haA).1, (mem_filter_not_used hnN).1,
        ha, hn, heq⟩

/-- C1: for every non-empty adjective list and non-empty noun list and
empty exclusion sets, `generate_unique_code_name` returns a code name that
is the concatenation of exactly one word from the adjective list and one
word from the noun list, upper-cased, joined by a single space. -/
theorem generate_from_full_lists (adjectives nouns : List String)
    (i j : Nat) (rest : List (Nat × Nat))
    (hA : adjectives ≠ []) (hN : nouns ≠ []) :
    ∃ a ∈ adjectives, ∃ n ∈ nouns,
      (generate_unique_code_name adjectives nouns ∅ ∅ ((i, j) :: rest)).1 =
        some (pyUpper (a ++ " " ++ n)) := by
  have hfA : adjectives.filter
      (fun adj => pyLower adj ∉ (∅ : Finset String)) = adjectives :=
    List.filter_eq_self.mpr (by simp)
  have hfN : nouns.filter
      (fun noun => pyLower noun ∉ (∅ : Finset String)) = nouns :=
    List.filter_eq_self.mpr (by simp)
  refine ⟨pyChoice adjectives i, pyChoice_mem _ _ hA,
    pyChoice nouns j, pyChoice_mem _ _ hN, ?_⟩
  unfold generate_unique_code_name
  rw [hfA, hfN, if_neg (not_or.mpr ⟨hA, hN⟩),
    generate_loop_cons_accept adjectives nouns ∅ ∅ i j rest hA hN
      (Finset.not_mem_empty _) (Finset.not_mem_empty _)]

/-- C1 witness: C1 instantiated at the lists `["Red"]` and `["Fox"]`. -/
theorem generate_from_full_lists_witness :
    ∃ a ∈ ["Red"], ∃ n ∈ ["Fox"],
      (generate_unique_code_name ["Red"] ["Fox"] ∅ ∅ ((0, 0) :: [])).1 =
        some (pyUpper (a ++ " " ++ n)) :=
  generate_from_full_lists ["Red"] ["Fox"] 0 0 [] (by decide) (by decide)

/-- C3: whenever filtering by the exclusion sets leaves either list empty
(for example when every adjective is excluded),
`generate_unique_code_name` produces no code name and returns `None`. -/
theorem generate_exhausted_none (adjectives nouns : List String)
    (usedA usedN : Finset String) (draws : List (Nat × Nat))
    (h : adjectives.filter (fun adj => pyLower adj ∉ usedA) = [] ∨
         nouns.filter (fun noun => pyLower noun ∉ usedN) = []) :
    (generate_unique_code_name adjectives nouns usedA usedN draws).1 = none := by
  unfold generate_unique_code_name
  rw [if_pos h]

/-- C3 witness: C3 instantiated with every adjective excluded. -/
theorem generate_exhausted_none_witness :
    (generate_unique_code_name ["Red"] ["Fox"] {"red"} ∅ [(0, 0)]).1 = none :=
  generate_exhausted_none ["Red"] ["Fox"] {"red"} ∅ [(0, 0)]
    (Or.inl (by decide))

/-- C4: every call of `generate_unique_code_name` that returns a code name
has chosen an adjective and a noun whose lower-casings are members of the
used-adjectives and used-nouns sets after the call. -/
theorem generate_success_marks_used (adjectives nouns : List String)
    (usedA usedN : Finset String) (draws : List (Nat × Nat)) (name : String)
    (h : (generate_unique_code_name adjectives nouns usedA usedN draws).1 =
      some name) :
    ∃ a ∈ adjectives, ∃ n ∈ nouns, name = pyUpper (a ++ " " ++ n) ∧
      pyLower a ∈
        (generate_unique_code_name adjectives nouns usedA usedN draws).2.1 ∧
      pyLower n ∈
        (generate_unique_code_name adjectives nouns usedA usedN draws).2.2 := by
  rcases generate_cases adjectives nouns usedA usedN draws with
    hnone | ⟨a, n, haA, hnN, _, _, heq⟩
  · rw [hnone] at h
    simp at h
  · refine ⟨a, haA, n, hnN, ?_, ?_, ?_⟩
    · rw [heq] at h
      exact (Option.some_inj.mp h).symm
    · rw [heq]
      exact Finset.mem_insert_self _ _
    · rw [heq]
      exact Finset.mem_insert_self _ _

/-- C4 witness: C4 instantiated at a successful concrete run. -/
theorem generate_success_marks_used_witness :
    ∃ a ∈ ["Red"], ∃ n ∈ ["Fox"], "RED FOX" = pyUpper (a ++ " " ++ n) ∧
      pyLower a ∈ (generate_unique_code_name ["Red"] ["Fox"] ∅ ∅ [(0, 0)]).2.1 ∧
      pyLower n ∈ (generate_unique_code_name ["Red"] ["Fox"] ∅ ∅ [(0, 0)]).2.2 :=
  generate_success_marks_used ["Red"] ["Fox"] ∅ ∅ [(0, 0)] "RED FOX" (by decide)

theorem generate_eq_loop (adjectives nouns : List String)
    (usedA usedN : Finset String) (draws : List (Nat × Nat))
    (hA : adjectives.filter (fun adj => pyLower adj ∉ usedA) ≠ [])
    (hN : nouns.filter (fun noun => pyLower noun ∉ usedN) ≠ []) :
    generate_unique_code_name adjectives nouns usedA usedN draws =
      generate_loop (adjectives.filter fun adj => pyLower adj ∉ usedA)
        (nouns.filter fun noun => pyLower noun ∉ usedN) usedA usedN draws := by
  unfold generate_unique_code_name
  rw [if_neg (not_or.mpr ⟨hA, hN⟩)]

/-- C8: when both filtered lists are non-empty the sampling loop
terminates, the acceptance condition holds on the first draw, and exactly
one draw is made: the result does not depend on the rest of the random
stream. -/
theorem generate_first_draw_succeeds (adjectives nouns : List String)
    (usedA usedN : Finset String) (i j : Nat) (rest : List (Nat × Nat))
    (hA : adjectives.filter (fun adj => pyLower adj ∉ usedA) ≠ [])
    (hN : nouns.filter (fun noun => pyLower noun ∉ usedN) ≠ []) :
    generate_unique_code_name adjectives nouns usedA usedN ((i, j) :: rest) =
      generate_unique_code_name adjectives nouns usedA usedN [(i, j)] ∧
    ((generate_unique_code_name adjectives nouns usedA usedN
        ((i, j) :: rest)).1).isSome := by
  have ha := (mem_filter_not_used (pyChoice_mem _ i hA)).2
  have hn := (mem_filter_not_used (pyChoice_mem _ j hN)).2
  rw [generate_eq_loop adjectives nouns usedA usedN ((i, j) :: rest) hA hN,
    generate_eq_loop adjectives nouns usedA usedN [(i, j)] hA hN,
    generate_loop_cons_accept _ _ _ _ i j rest hA hN ha hn,
    generate_loop_cons_accept _ _ _ _ i j [] hA hN ha hn]
  exact ⟨rfl, rfl⟩

/-- C8 witness: C8 instantiated at a concrete run with a longer random
stream. -/
theorem generate_first_draw_succeeds_witness :
    generate_unique_code_name ["Red"] ["Fox"] ∅ ∅ ((0, 0) :: [(5, 7)]) =
      generate_unique_code_name ["Red"] ["Fox"] ∅ ∅ [(0, 0)] ∧
    ((generate_unique_code_name ["Red"] ["Fox"] ∅ ∅
        ((0, 0) :: [(5, 7)])).1).isSome :=
  generate_first_draw_succeeds ["Red"] ["Fox"] ∅ ∅ 0 0 [(5, 7)]
    (by decide) (by decide)

/-- C9: `generate_unique_code_name` returns `None` exactly when it leaves
both exclusion sets unchanged: the sets are mutated if and only if a code
name is returned. -/
theorem generate_none_iff_unchanged (adjectives nouns : List String)
    (usedA usedN : Finset String) (draws : List (Nat × Nat)) :
    (generate_unique_code_name adjectives nouns usedA usedN draws).1 = none ↔
      ((generate_unique_code_name adjectives nouns usedA usedN draws).2.1 =
        usedA ∧
       (generate_unique_code_name adjectives nouns usedA usedN draws).2.2 =
        usedN) := by
  rcases generate_cases adjectives nouns usedA usedN draws with
    hnone | ⟨a, n, _, _, ha, _, heq⟩
  · rw [hnone]
    simp
  · rw [heq]
    constructor
    · intro h
      exact absurd h (by simp)
    · rintro ⟨h1, _⟩
      exact (ha (Finset.insert_eq_self.mp h1)).elim

theorem foldl_add_used_line (lines : List String) (accA accN : Finset String) :
    lines.foldl add_used_line (accA, accN) =
      (accA ∪ (lines.filterMap fun line =>
          match pySplit (pyStrip line) with
          | [adj, _] => some (pyLower adj)
          | _ => none).toFinset,
       accN ∪ (lines.filterMap fun line =>
          match pySplit (pyStrip line) with
          | [_, noun] => some (pyLower noun)
          | _ => none).toFinset) := by
  induction lines generalizing accA accN with
  | nil => simp
  | cons l ls ih =>
    rw [List.foldl_cons]
    rcases hsp : pySplit (pyStrip l) with _ | ⟨a, _ | ⟨b, _ | ⟨c, cs⟩⟩⟩
    · simp [add_used_line, hsp, ih, List.filterMap_cons]
    · simp [add_used_line, hsp, ih, List.filterMap_cons]
    · simp [add_used_line, hsp, ih, List.filterMap_cons]
    · simp [add_used_line, hsp, ih, List.filterMap_cons]

/-- C2: `load_used_code_names` splits each line on whitespace, and for
exactly the lines yielding exactly two tokens adds the lowercased first
token to the used-adjectives set and the lowercased second token to the
used-nouns set, silently skipping every other line; in particular a file
with lines `RED FOX` and `blue cat` yields the sets
{"red","blue"} and {"fox","cat"}. -/
theorem load_used_code_names_spec :
    (∀ (fs : FS) (p content : String), fs p = some content →
      load_used_code_names fs p =
        (((pyLines content).filterMap fun line =>
            match pySplit (pyStrip line) with
            | [adj, _] => some (pyLower adj)
            | _ => none).toFinset,
         ((pyLines content).filterMap fun line =>
            match pySplit (pyStrip line) with
            | [_, noun] => some (pyLower noun)
            | _ => none).toFinset, [])) ∧
    load_used_code_names
        (fun q => if q = "used.txt" then some "RED FOX\nblue cat\n" else none)
        "used.txt" =
      ({"red", "blue"}, {"fox", "cat"}, []) := by
  constructor
  · intro fs p content h
    simp [load_used_code_names, h, parse_used_code_names, foldl_add_used_line]
  · decide

/-- C2 witness: the general characterisation of C2 instantiated at a
concrete file. -/
theorem load_used_code_names_spec_witness :
    load_used_code_names
        (fun q => if q = "u" then some "RED FOX\nblue cat\n" else none) "u" =
      (((pyLines "RED FOX\nblue cat\n").filterMap fun line =>
          match pySplit (pyStrip line) with
          | [adj, _] => some (pyLower adj)
          | _ => none).toFinset,
       ((pyLines "RED FOX\nblue cat\n").filterMap fun line =>
          match pySplit (pyStrip line) with
          | [_, noun] => some (pyLower noun)
          | _ => none).toFinset, []) :=
  load_used_code_names_spec.1 _ "u" "RED FOX\nblue cat\n" (by decide)

theorem filterMap_strip_eq (L : List String) :
    (L.filterMap fun line =>
        if pyStrip line ≠ "" then some (pyStrip line) else none) =
      (L.filter fun line => pyStrip line ≠ "").map pyStrip := by
  induction L with
  | nil => rfl
  | cons l ls ih =>
    by_cases h : pyStrip l = ""
    all_goals
      simp [List.filterMap_cons, List.filter_cons, h]
      simpa using ih

/-- C7: for a nonexistent path `load_words_from_file` returns an empty
list and prints a diagnostic rather than raising; for an existing file it
returns one word per non-empty trimmed line. -/
theorem load_words_from_file_spec (fs : FS) (path : String) :
    (fs path = none →
      load_words_from_file fs path =
        ([], ["File " ++ path ++ " not found."])) ∧
    (∀ content, fs path = some content →
      (load_words_from_file fs path).1 =
        ((pyLines content).filter fun line => pyStrip line ≠ "").map pyStrip) := by
  constructor
  · intro h
    simp [load_words_from_file, h]
  · intro content h
    have hload : load_words_from_file fs path =
        ((pyLines content).filterMap fun line =>
          if pyStrip line ≠ "" then some (pyStrip line) else none, []) := by
      simp [load_words_from_file, h]
    rw [hload]
    exact filterMap_strip_eq _

/-- C7 witness: C7 instantiated at a missing file and at a concrete
file. -/
theorem load_words_from_file_spec_witness :
    load_words_from_file (fun _ => none) "words.txt" =
      ([], ["File " ++ "words.txt" ++ " not found."]) ∧
    (load_words_from_file (fun _ => some " Red \n\nFox\n") "w").1 =
      ((pyLines " Red \n\nFox\n").filter fun line =>
        pyStrip line ≠ "").map pyStrip :=
  ⟨(load_words_from_file_spec (fun _ => none) "words.txt").1 rfl,
   (load_words_from_file_spec (fun _ => some " Red \n\nFox\n") "w").2 _ rfl⟩

/-- C5: `main` stops early and reports "Error: Adjective or noun list is
empty." when either loaded list is empty, without sampling or touching the
file system; and when the sampler is exhausted it reports "No unique code
names could be generated." and does not append to the log. -/
theorem main_error_reporting (fs : FS) (web : String → String → List String)
    (af nf uf : Option String) (ap : Bool) (draws : List (Nat × Nat)) :
    ((get_words fs web af nf).1 = [] ∨ (get_words fs web af nf).2.1 = [] →
      Codenames.main fs web af nf uf ap draws =
        (fs, (get_words fs web af nf).2.2 ++
          ["Error: Adjective or noun list is empty."])) ∧
    ((get_words fs web af nf).1 ≠ [] → (get_words fs web af nf).2.1 ≠ [] →
      (generate_unique_code_name (get_words fs web af nf).1
        (get_words fs web af nf).2.1 (load_used_opt fs uf).1
        (load_used_opt fs uf).2.1 draws).1 = none →
      Codenames.main fs web af nf uf ap draws =
        (fs, (get_words fs web af nf).2.2 ++ (load_used_opt fs uf).2.2 ++
          ["No unique code names could be generated."])) := by
  constructor
  · intro h
    unfold Codenames.main
    rw [if_pos h]
  · intro h1 h2 h3
    unfold Codenames.main
    rw [if_neg (not_or.mpr ⟨h1, h2⟩)]
    simp only [h3]

/-- C6: a `main` run with the append flag and a log path that generates a
code name leaves the log equal to its previous content with the single new
final line of the code name, unchanged from the printed output. -/
theorem main_append_effect (fs : FS) (web : String → String → List String)
    (af nf : Option String) (p old name : String) (draws : List (Nat × Nat))
    (hA : (get_words fs web af nf).1 ≠ [])
    (hN : (get_words fs web af nf).2.1 ≠ [])
    (hgen : (generate_unique_code_name (get_words fs web af nf).1
        (get_words fs web af nf).2.1 (load_used_opt fs (some p)).1
        (load_used_opt fs (some p)).2.1 draws).1 = some name)
    (hold : fs p = some old) :
    (Codenames.main fs web af nf (some p) true draws).1 p =
      some (old ++ name ++ "\n") ∧
    ("Generated code name: " ++ name) ∈
      (Codenames.main fs web af nf (some p) true draws).2 := by
  unfold Codenames.main
  rw [if_neg (not_or.mpr ⟨hA, hN⟩)]
  simp only [hgen]
  constructor
  · simp [append_to_used_code_names_file, hold]
  · simp

theorem toLower_isWhitespace (c : Char) :
    (Char.toLower c).isWhitespace = c.isWhitespace := by
  unfold Char.toLower
  dsimp only
  split
  · rename_i h
    obtain ⟨h1, h2⟩ := h
    obtain ⟨n, hn⟩ : ∃ n, c.toNat = n := ⟨_, rfl⟩
    have hc : c = Char.ofNat n := by rw [← hn, Char.ofNat_toNat]
    subst hc
    rw [hn] at h1 h2 ⊢
    interval_cases n <;> decide
  · rfl

theorem toList_append (s t : String) :
    (s ++ t).toList = s.toList ++ t.toList := rfl

theorem toList_pyLower (s : String) :
    (pyLower s).toList = s.toList.map Char.toLower := rfl

theorem toList_eq_nil {t : String} (h : t.toList = []) : t = "" := by
  have h2 := congrArg String.mk h
  rw [mk_toList] at h2
  exact h2

theorem mk_ne_empty {l : List Char} (h : l ≠ []) : String.mk l ≠ "" := by
  intro hcon
  exact h (congrArg String.toList hcon)

theorem pySplitAux_tokens (l : List Char) :
    ∀ acc, (∀ c ∈ acc, ¬ c.isWhitespace) →
    ∀ t ∈ pySplitAux l acc, t ≠ "" ∧ ∀ c ∈ t.toList, ¬ c.isWhitespace := by
  induction l with
  | nil =>
    intro acc hacc t ht
    simp only [pySplitAux] at ht
    split at ht
    · simp at ht
    · rename_i hne
      simp only [List.mem_singleton] at ht
      subst ht
      refine ⟨mk_ne_empty ?_, ?_⟩
      · simp only [List.isEmpty_eq_true] at hne
        simpa using hne
      · intro c hc
        exact hacc c (List.mem_reverse.mp hc)
  | cons c cs ih =>
    intro acc hacc t ht
    simp only [pySplitAux] at ht
    by_cases hw : c.isWhitespace
    · rw [if_pos hw] at ht
      rcases List.mem_append.mp ht with h1 | h2
      · split at h1
        · simp at h1
        · rename_i hne
          simp only [List.mem_singleton] at h1
          subst h1
          refine ⟨mk_ne_empty ?_, ?_⟩
          · simp only [List.isEmpty_eq_true] at hne
            simpa using hne
          · intro d hd
            exact hacc d (List.mem_reverse.mp hd)
      · exact ih [] (by simp) t h2
    · rw [if_neg hw] at ht
      refine ih (c :: acc) ?_ t ht
      intro d hd
      rcases List.mem_cons.mp hd with rfl | hd2
      · exact hw
      · exact hacc d hd2

theorem pySplit_tokens (s : String) :
    ∀ t ∈ pySplit s, t ≠ "" ∧ ∀ c ∈ t.toList, ¬ c.isWhitespace :=
  pySplitAux_tokens s.toList [] (by simp)

theorem pyLower_token_prop {t : String}
    (h : t ≠ "" ∧ ∀ c ∈ t.toList, ¬ c.isWhitespace) :
    pyLower t ≠ "" ∧ ∀ c ∈ (pyLower t).toList, ¬ c.isWhitespace := by
  constructor
  · intro hcon
    apply h.1
    apply toList_eq_nil
    have h2 := congrArg String.toList hcon
    rw [toList_pyLower] at h2
    exact List.map_eq_nil_iff.mp h2
  · intro c hc
    rw [toList_pyLower] at hc
    obtain ⟨d, hd, rfl⟩ := List.mem_map.mp hc
    rw [toLower_isWhitespace]
    exact h.2 d hd

theorem foldl_add_used_line_prop (lines : List String) :
    ∀ acc : Finset String × Finset String,
    (∀ x ∈ acc.1, x ≠ "" ∧ ∀ c ∈ x.toList, ¬ c.isWhitespace) →
    (∀ x ∈ acc.2, x ≠ "" ∧ ∀ c ∈ x.toList, ¬ c.isWhitespace) →
    (∀ x ∈ (lines.foldl add_used_line acc).1,
        x ≠ "" ∧ ∀ c ∈ x.toList, ¬ c.isWhitespace) ∧
    (∀ x ∈ (lines.foldl add_used_line acc).2,
        x ≠ "" ∧ ∀ c ∈ x.toList, ¬ c.isWhitespace) := by
  induction lines with
  | nil =>
    intro acc h1 h2
    exact ⟨h1, h2⟩
  | cons l ls ih =>
    intro acc h1 h2
    rw [List.foldl_cons]
    rcases hsp : pySplit (pyStrip l) with _ | ⟨a, _ | ⟨b, _ | ⟨e, es⟩⟩⟩
    · have hred : add_used_line acc l = acc := by simp [add_used_line, hsp]
      rw [hred]
      exact ih acc h1 h2
    · have hred : add_used_line acc l = acc := by simp [add_used_line, hsp]
      rw [hred]
      exact ih acc h1 h2
    · have hred : add_used_line acc l =
          (insert (pyLower a) acc.1, insert (pyLower b) acc.2) := by
        simp [add_used_line, hsp]
      rw [hred]
      refine ih _ ?_ ?_
      · intro x hx
        rcases Finset.mem_insert.mp hx with rfl | hx2
        · exact pyLower_token_prop (pySplit_tokens _ a (by rw [hsp]; simp))
        · exact h1 x hx2
      · intro x hx
        rcases Finset.mem_insert.mp hx with rfl | hx2
        · exact pyLower_token_prop (pySplit_tokens _ b (by rw [hsp]; simp))
        · exact h2 x hx2
    · have hred : add_used_line acc l = acc := by simp [add_used_line, hsp]
      rw [hred]
      exact ih acc h1 h2

theorem parse_used_code_names_prop (content : String) :
    (∀ x ∈ (parse_used_code_names content).1,
        x ≠ "" ∧ ∀ c ∈ x.toList, ¬ c.isWhitespace) ∧
    (∀ x ∈ (parse_used_code_names content).2,
        x ≠ "" ∧ ∀ c ∈ x.toList, ¬ c.isWhitespace) :=
  foldl_add_used_line_prop (pyLines content) (∅, ∅) (by simp) (by simp)

theorem pyLinesAux_cons_newline (cs acc : List Char) :
    pyLinesAux ('\n' :: cs) acc = String.mk acc.reverse :: pyLinesAux cs [] := by
  simp [pyLinesAux]

theorem pyLinesAux_cons_other {c : Char} (hc : c ≠ '\n') (cs acc : List Char) :
    pyLinesAux (c :: cs) acc = pyLinesAux cs (c :: acc) := by
  simp [pyLinesAux, hc]

theorem pyLinesAux_last_newline (l : List Char) (hl : l.getLast? = some '\n') :
    ∀ acc ys, pyLinesAux (l ++ ys) acc = pyLinesAux l acc ++ pyLinesAux ys [] := by
  induction l with
  | nil => simp at hl
  | cons c cs ih =>
    intro acc ys
    cases cs with
    | nil =>
      simp only [List.getLast?_singleton, Option.some_inj] at hl
      subst hl
      rw [List.cons_append, List.nil_append, pyLinesAux_cons_newline,
        pyLinesAux_cons_newline]
      simp [pyLinesAux]
    | cons c2 cs2 =>
      have hl2 : (c2 :: cs2).getLast? = some '\n' := by
        rwa [List.getLast?_cons_cons] at hl
      by_cases hc : c = '\n'
      · subst hc
        rw [List.cons_append, pyLinesAux_cons_newline, pyLinesAux_cons_newline,
          ih hl2 [] ys, List.cons_append]
      · rw [List.cons_append, pyLinesAux_cons_other hc, pyLinesAux_cons_other hc,
          ih hl2 (c :: acc) ys]

theorem pyLinesAux_no_newline (l : List Char) (hl : ∀ c ∈ l, c ≠ '\n') :
    ∀ acc, pyLinesAux (l ++ ['\n']) acc = [String.mk (acc.reverse ++ l)] := by
  induction l with
  | nil =>
    intro acc
    simp [pyLinesAux]
  | cons c cs ih =>
    intro acc
    have hc : c ≠ '\n' := hl c (List.mem_cons_self _ _)
    rw [List.cons_append, pyLinesAux_cons_other hc,
      ih (fun d hd => hl d (List.mem_cons_of_mem _ hd)) (c :: acc)]
    simp

theorem dropWhile_ws_eq_self {l : List Char}
    (h : ∀ x, l.head? = some x → ¬ x.isWhitespace) :
    l.dropWhile Char.isWhitespace = l := by
  cases l with
  | nil => rfl
  | cons c cs =>
    rw [List.dropWhile_cons, if_neg]
    simpa using h c rfl

theorem pyStrip_eq_self {s : String}
    (hhead : ∀ x, s.toList.head? = some x → ¬ x.isWhitespace)
    (hlast : ∀ x, s.toList.getLast? = some x → ¬ x.isWhitespace) :
    pyStrip s = s := by
  unfold pyStrip
  rw [dropWhile_ws_eq_self hhead, dropWhile_ws_eq_self ?hrev]
  · rw [List.reverse_reverse]
    exact mk_toList s
  · intro x hx
    rw [List.head?_reverse] at hx
    exact hlast x hx

theorem pySplitAux_cons_ws {c : Char} (hc : c.isWhitespace) (cs acc : List Char) :
    pySplitAux (c :: cs) acc =
      (if acc.isEmpty then [] else [String.mk acc.reverse]) ++ pySplitAux cs [] := by
  simp [pySplitAux, hc]

theorem pySplitAux_cons_other {c : Char} (hc : ¬ c.isWhitespace)
    (cs acc : List Char) :
    pySplitAux (c :: cs) acc = pySplitAux cs (c :: acc) := by
  simp [pySplitAux, hc]

theorem pySplitAux_nonws (l : List Char)
    (hl : ∀ c ∈ l, ¬ c.isWhitespace) :
    ∀ acc rest, pySplitAux (l ++ rest) acc = pySplitAux rest (l.reverse ++ acc) := by
  induction l with
  | nil =>
    intro acc rest
    simp
  | cons c cs ih =>
    intro acc rest
    have hc : ¬ c.isWhitespace := hl c (List.mem_cons_self _ _)
    rw [List.cons_append, pySplitAux_cons_other hc,
      ih (fun d hd => hl d (List.mem_cons_of_mem _ hd)) (c :: acc) rest]
    congr 1
    simp

theorem pySplit_pair (adj noun : String) (hA : adj ≠ "") (hN : noun ≠ "")
    (hAws : ∀ c ∈ adj.toList, ¬ c.isWhitespace)
    (hNws : ∀ c ∈ noun.toList, ¬ c.isWhitespace) :
    pySplit (adj ++ " " ++ noun) = [adj, noun] := by
  have hAl : adj.toList ≠ [] := fun h => hA (toList_eq_nil h)
  have hNl : noun.toList ≠ [] := fun h => hN (toList_eq_nil h)
  unfold pySplit
  have htl : (adj ++ " " ++ noun).toList = adj.toList ++ ' ' :: noun.toList := by
    rw [toList_append, toList_append, List.append_assoc]
    rfl
  rw [htl, pySplitAux_nonws adj.toList hAws [] (' ' :: noun.toList),
    pySplitAux_cons_ws (by decide)]
  have hne : (adj.toList.reverse ++ []).isEmpty = false := by
    simp only [List.append_nil, List.isEmpty_eq_false, ne_eq,
      List.reverse_eq_nil_iff]
    exact hAl
  rw [hne]
  have h1 : String.mk (adj.toList.reverse ++ []).reverse = adj := by
    simp [mk_toList]
  rw [h1]
  have h2 : pySplitAux noun.toList [] = [noun] := by
    rw [← List.append_nil noun.toList,
      pySplitAux_nonws noun.toList hNws [] []]
    simp only [pySplitAux]
    have hne2 : (noun.toList.reverse ++ []).isEmpty = false := by
      simp only [List.append_nil, List.isEmpty_eq_false, ne_eq,
        List.reverse_eq_nil_iff]
      exact hNl
    rw [hne2]
    simp [mk_toList]
  rw [h2]
  rfl

theorem pyStrip_pair (adj noun : String) (hA : adj ≠ "") (hN : noun ≠ "")
    (hAws : ∀ c ∈ adj.toList, ¬ c.isWhitespace)
    (hNws : ∀ c ∈ noun.toList, ¬ c.isWhitespace) :
    pyStrip (adj ++ " " ++ noun) = adj ++ " " ++ noun := by
  have hAl : adj.toList ≠ [] := fun h => hA (toList_eq_nil h)
  have hNl : noun.toList ≠ [] := fun h => hN (toList_eq_nil h)
  have htl : (adj ++ " " ++ noun).toList = adj.toList ++ ' ' :: noun.toList := by
    rw [toList_append, toList_append, List.append_assoc]
    rfl
  obtain ⟨a, as, ha⟩ := List.exists_cons_of_ne_nil hAl
  rcases List.eq_nil_or_concat' noun.toList with hnil | ⟨ns, b, hb⟩
  · exact absurd hnil hNl
  apply pyStrip_eq_self
  · intro x hx
    rw [htl, ha, List.cons_append, List.head?_cons, Option.some_inj] at hx
    subst hx
    exact hAws _ (by rw [ha]; exact List.mem_cons_self _ _)
  · intro x hx
    have hre : adj.toList ++ ' ' :: noun.toList =
        (adj.toList ++ ' ' :: ns) ++ [b] := by
      rw [hb, ← List.cons_append, ← List.append_assoc]
    rw [htl, hre, List.getLast?_concat, Option.some_inj] at hx
    subst hx
    exact hNws _ (by rw [hb]; exact List.mem_append_right _ (List.mem_singleton_self _))

theorem pyLines_append_line (old line : String)
    (hterm : old = "" ∨ ∃ q, old = q ++ "\n")
    (hnl : ∀ c ∈ line.toList, c ≠ '\n') :
    pyLines (old ++ line ++ "\n") = pyLines old ++ [line] := by
  have htl : (old ++ line ++ "\n").toList =
      old.toList ++ (line.toList ++ ['\n']) := by
    rw [toList_append, toList_append, List.append_assoc]
    rfl
  rcases hterm with rfl | ⟨q, rfl⟩
  · unfold pyLines
    rw [htl]
    have h0 : ("" : String).toList = [] := rfl
    rw [h0, List.nil_append, pyLinesAux_no_newline line.toList hnl []]
    simp [mk_toList, pyLinesAux]
  · unfold pyLines
    rw [htl]
    have hlast : (q ++ "\n").toList.getLast? = some '\n' := by
      rw [toList_append]
      exact List.getLast?_concat _
    rw [pyLinesAux_last_newline _ hlast [] _,
      pyLinesAux_no_newline line.toList hnl []]
    simp [mk_toList]

theorem parse_append_pair (old adj noun : String)
    (hterm : old = "" ∨ ∃ q, old = q ++ "\n")
    (hA : adj ≠ "") (hN : noun ≠ "")
    (hAws : ∀ c ∈ adj.toList, ¬ c.isWhitespace)
    (hNws : ∀ c ∈ noun.toList, ¬ c.isWhitespace) :
    parse_used_code_names (old ++ (adj ++ " " ++ noun) ++ "\n") =
      (insert (pyLower adj) (parse_used_code_names old).1,
       insert (pyLower noun) (parse_used_code_names old).2) := by
  have htl2 : (adj ++ " " ++ noun).toList = adj.toList ++ ' ' :: noun.toList := by
    rw [toList_append, toList_append, List.append_assoc]
    rfl
  have hnl : ∀ c ∈ (adj ++ " " ++ noun).toList, c ≠ '\n' := by
    intro c hc
    rw [htl2] at hc
    rcases List.mem_append.mp hc with h1 | h2
    · intro hcon
      exact hAws c h1 (by rw [hcon]; decide)
    · rcases List.mem_cons.mp h2 with rfl | h4
      · decide
      · intro hcon
        exact hNws c h4 (by rw [hcon]; decide)
  unfold parse_used_code_names
  rw [pyLines_append_line old (adj ++ " " ++ noun) hterm hnl,
    List.foldl_append, List.foldl_cons, List.foldl_nil]
  have hstep : add_used_line ((pyLines old).foldl add_used_line (∅, ∅))
      (adj ++ " " ++ noun) =
      (insert (pyLower adj) ((pyLines old).foldl add_used_line (∅, ∅)).1,
       insert (pyLower noun) ((pyLines old).foldl add_used_line (∅, ∅)).2) := by
    unfold add_used_line
    rw [pyStrip_pair adj noun hA hN hAws hNws,
      pySplit_pair adj noun hA hN hAws hNws]
  rw [hstep]

/-- C10 (amended): if the prior log content is empty or ends in a newline
and the two words are non-empty and whitespace-free, appending the line
written by `append_to_used_code_names_file` and re-parsing with
`load_used_code_names` yields exactly the prior exclusion sets with the
lowercased adjective and noun added; and if either word contains
whitespace, the appended line is never parsed back as that pair. -/
theorem append_then_load_roundtrip (fs : FS) (p old adj noun : String)
    (hold : fs p = some old) :
    ((old = "" ∨ ∃ q, old = q ++ "\n") → adj ≠ "" → noun ≠ "" →
      (∀ c ∈ adj.toList, ¬ c.isWhitespace) →
      (∀ c ∈ noun.toList, ¬ c.isWhitespace) →
      load_used_code_names
          (append_to_used_code_names_file (adj ++ " " ++ noun) fs p) p =
        (insert (pyLower adj) (parse_used_code_names old).1,
         insert (pyLower noun) (parse_used_code_names old).2, [])) ∧
    (((∃ c ∈ adj.toList, c.isWhitespace = true) ∨
        (∃ c ∈ noun.toList, c.isWhitespace = true)) →
      load_used_code_names
          (append_to_used_code_names_file (adj ++ " " ++ noun) fs p) p ≠
        (insert (pyLower adj) (parse_used_code_names old).1,
         insert (pyLower noun) (parse_used_code_names old).2, [])) := by
  have happ : (append_to_used_code_names_file (adj ++ " " ++ noun) fs p) p =
      some (old ++ (adj ++ " " ++ noun) ++ "\n") := by
    simp [append_to_used_code_names_file, hold]
  have hload : load_used_code_names
      (append_to_used_code_names_file (adj ++ " " ++ noun) fs p) p =
      ((parse_used_code_names (old ++ (adj ++ " " ++ noun) ++ "\n")).1,
       (parse_used_code_names (old ++ (adj ++ " " ++ noun) ++ "\n")).2, []) := by
    simp [load_used_code_names, happ]
  constructor
  · intro hterm hA hN hAws hNws
    rw [hload, parse_append_pair old adj noun hterm hA hN hAws hNws]
  · intro hws hcon
    rw [hload] at hcon
    have h1 := congrArg (fun t : Finset String × Finset String × List String =>
      t.1) hcon
    have h2 := congrArg (fun t : Finset String × Finset String × List String =>
      t.2.1) hcon
    simp only at h1 h2
    rcases hws with ⟨c, hc, hcw⟩ | ⟨c, hc, hcw⟩
    · have hmem : pyLower adj ∈
          (parse_used_code_names (old ++ (adj ++ " " ++ noun) ++ "\n")).1 := by
        rw [h1]
        exact Finset.mem_insert_self _ _
      have hprop := (parse_used_code_names_prop _).1 _ hmem
      refine hprop.2 (Char.toLower c) ?_ ?_
      · rw [toList_pyLower]
        exact List.mem_map_of_mem _ hc
      · rw [toLower_isWhitespace]
        exact hcw
    · have hmem : pyLower noun ∈
          (parse_used_code_names (old ++ (adj ++ " " ++ noun) ++ "\n")).2 := by
        rw [h2]
        exact Finset.mem_insert_self _ _
      have hprop := (parse_used_code_names_prop _).2 _ hmem
      refine hprop.2 (Char.toLower c) ?_ ?_
      · rw [toList_pyLower]
        exact List.mem_map_of_mem _ hc
      · rw [toLower_isWhitespace]
        exact hcw

/-- C10 counterexample: with prior log content `"A"` (no terminating
newline) and the whitespace-free words `RED` and `FOX`, the appended line
fuses with the last line of the log, so re-parsing does not yield the
prior sets extended with the pair: the claim fails without the
newline-termination hypothesis. -/
theorem append_then_load_roundtrip_cex :
    ¬ (load_used_code_names
        (append_to_used_code_names_file ("RED" ++ " " ++ "FOX")
          (fun q => if q = "log" then some "A" else none) "log") "log" =
      (insert (pyLower "RED") (parse_used_code_names "A").1,
       insert (pyLower "FOX") (parse_used_code_names "A").2, [])) := by
  decide

/-- C5 witness: both parts of C5 instantiated at concrete runs (missing
word files, and a log that excludes the only candidates). -/
theorem main_error_reporting_witness :
    Codenames.main fsEmpty noWeb (some "a") (some "n") none false [] =
      (fsEmpty, (get_words fsEmpty noWeb (some "a") (some "n")).2.2 ++
        ["Error: Adjective or noun list is empty."]) ∧
    Codenames.main fsExhausted noWeb (some "a") (some "n") (some "log")
        false [(0, 0)] =
      (fsExhausted,
       (get_words fsExhausted noWeb (some "a") (some "n")).2.2 ++
         (load_used_opt fsExhausted (some "log")).2.2 ++
         ["No unique code names could be generated."]) :=
  ⟨(main_error_reporting fsEmpty noWeb (some "a") (some "n") none false []).1
      (Or.inl (by decide)),
   (main_error_reporting fsExhausted noWeb (some "a") (some "n") (some "log")
      false [(0, 0)]).2 (by decide) (by decide) (by decide)⟩

/-- C6 witness: C6 instantiated at a concrete run appending to a log that
previously held `OLD CAT`. -/
theorem main_append_effect_witness :
    (Codenames.main fsReady noWeb (some "a") (some "n") (some "log") true
        [(0, 0)]).1 "log" = some ("OLD CAT\n" ++ "RED FOX" ++ "\n") ∧
    ("Generated code name: " ++ "RED FOX") ∈
      (Codenames.main fsReady noWeb (some "a") (some "n") (some "log") true
        [(0, 0)]).2 :=
  main_append_effect fsReady noWeb (some "a") (some "n") "log" "OLD CAT\n"
    "RED FOX" [(0, 0)] (by decide) (by decide) (by decide) (by decide)

/-- C10 witness: both parts of the amended C10 instantiated at concrete
logs and words. -/
theorem append_then_load_roundtrip_witness :
    load_used_code_names
        (append_to_used_code_names_file ("RED" ++ " " ++ "FOX") fsReady "log")
        "log" =
      (insert (pyLower "RED") (parse_used_code_names "OLD CAT\n").1,
       insert (pyLower "FOX") (parse_used_code_names "OLD CAT\n").2, []) ∧
    load_used_code_names
        (append_to_used_code_names_file ("RED FOX" ++ " " ++ "X") fsReady "log")
        "log" ≠
      (insert (pyLower "RED FOX") (parse_used_code_names "OLD CAT\n").1,
       insert (pyLower "X") (parse_used_code_names "OLD CAT\n").2, []) :=
  ⟨(append_then_load_roundtrip fsReady "log" "OLD CAT\n" "RED" "FOX"
      (by decide)).1 (Or.inr ⟨"OLD CAT", by decide⟩) (by decide) (by decide)
      (by decide) (by decide),
   (append_then_load_roundtrip fsReady "log" "OLD CAT\n" "RED FOX" "X"
      (by decide)).2 (Or.inl ⟨' ', by decide, by decide⟩)⟩
